import Mathlib

/-!
Verification of the backtesting core of the `my-ai-trading-agent` repository.

Shallow embedding of:
  * `src/backtesting/backtest_engine.py` (`BacktestEngine.run_backtest`,
    `BacktestEngine._calculate_metrics`),
  * `src/data/historical_data_manager.py` (`HistoricalDataManager.preprocess_data`),
  * `src/backtesting/optimization.py` (`StrategyOptimizer.__init__`,
    `StrategyOptimizer.grid_search`, `MonteCarloSimulator.run_simulation`,
    `MonteCarloSimulator._create_simulated_prices`).

Conventions used throughout:
  * Python / numpy floats are modelled by `ℚ`.  Where the Python code can
    produce the non-finite float values `inf`, `-inf`, `nan` (division by
    zero in numpy / pandas) we use the explicit value type `FVal` below.
  * A pandas `DataFrame` is modelled by its list of column names and its
    `close` column; the row index is implicitly `0, 1, 2, …` (strictly
    increasing, duplicate free, no missing values), which is the only shape
    the engine ever reads from it (`data['close'].iloc[i]`, `data.index[i]`,
    `len(data)`, `data.iloc[:i+1]`).
  * A strategy's `get_recommendation` is an opaque function from the data
    frame it is shown to the `'action'` field of the returned dictionary,
    which is the only field the engine reads.
  * Exceptions are modelled with `Except PyError`.
-/

namespace Backtest

/-- The `'action'` field of a strategy recommendation. -/
inductive Action
  | buy
  | sell
  | hold
deriving DecidableEq

/-- The `'type'` field of a trade record. -/
inductive TradeType
  | buy
  | sell
deriving DecidableEq

/-- One entry of the `trades` list built by `BacktestEngine.run_backtest`:
`{'timestamp': data.index[i], 'type': …, 'price': …, 'size': …, 'capital': …}`.
The row index is modelled by the bar number. -/
structure Trade where
  timestamp : Nat
  type : TradeType
  price : ℚ
  size : ℚ
  capital : ℚ
deriving DecidableEq

instance : Inhabited Trade :=
  ⟨⟨0, .buy, 0, 0, 0⟩⟩

/-- A pandas data frame, reduced to the parts the backtesting code reads:
its column names and its `close` column.  `len(data)` is `close.length`. -/
structure DataFrame where
  columns : List String
  close : List ℚ
deriving DecidableEq

/-- The mutable loop state of `BacktestEngine.run_backtest`:
`capital`, `position`, `trades`, `equity_curve`. -/
structure EngState where
  capital : ℚ
  position : ℚ
  trades : List Trade
  equity : List ℚ
deriving DecidableEq

/-- Python exceptions that the modelled code can raise.  The source never
defines nor raises `DataUnavailableError` / `DataFormatError`; those two
constructors exist only so that the specification's error taxonomy can be
stated and compared against what the code actually raises. -/
inductive PyError
  | valueError
  | indexError
  | zeroDivisionError
  | typeError
  | dataUnavailableError
  | dataFormatError
deriving DecidableEq

/-- Embeds `data.iloc[:i+1]` followed by nothing: truncating the frame to its first
`n` rows. -/
def dfTake (d : DataFrame) (n : Nat) : DataFrame :=
  ⟨d.columns, d.close.take n⟩

/-- Embeds `current_data = data.iloc[:i+1]` (backtest_engine.py line 65). -/
def currentData (d : DataFrame) (i : Nat) : DataFrame :=
  dfTake d (i + 1)

/-- The trade-execution block of the per-bar loop
(backtest_engine.py lines 71–95): the `if recommendation['action'] != 'hold'`
guard, the `buy`/`position <= 0` branch and the `sell`/`position > 0` branch.
In each branch the trade dictionary records the capital *after* the update. -/
def tradeStep (commission : ℚ) (action : Action) (price : ℚ) (ts : Nat)
    (s : EngState) : EngState :=
  match action with
  | .hold => s
  | .buy =>
    if s.position ≤ 0 then
      let position_size := s.capital / price
      { s with
        position := position_size
        capital := s.capital - position_size * price * (1 + commission)
        trades := s.trades ++
          [⟨ts, .buy, price, position_size,
            s.capital - position_size * price * (1 + commission)⟩] }
    else s
  | .sell =>
    if 0 < s.position then
      { s with
        capital := s.capital + s.position * price * (1 - commission)
        trades := s.trades ++
          [⟨ts, .sell, price, s.position,
            s.capital + s.position * price * (1 - commission)⟩]
        position := 0 }
    else s

/-- One iteration of the `for i in range(len(data))` loop of
`BacktestEngine.run_backtest` (lines 64–99): get the recommendation on the
prefix `data.iloc[:i+1]`, execute the trade block, then append
`capital + (position * data['close'].iloc[i] if position > 0 else 0)` to the
equity curve. -/
def barStep (commission : ℚ) (strategy : DataFrame → Action) (d : DataFrame)
    (s : EngState) (i : Nat) : EngState :=
  let recommendation := strategy (currentData d i)
  let price := d.close.getD i 0
  let s1 := tradeStep commission recommendation price i s
  { s1 with
    equity := s1.equity ++
      [s1.capital + (if 0 < s1.position then s1.position * price else 0)] }

/-- The loop state before the first bar: `capital = self.initial_capital`,
`position = 0`, `trades = []`, `equity_curve = []`. -/
def initState (initial_capital : ℚ) : EngState :=
  ⟨initial_capital, 0, [], []⟩

/-- The loop state after the first `n` iterations of the bar loop. -/
def runUpTo (commission initial_capital : ℚ) (strategy : DataFrame → Action)
    (d : DataFrame) (n : Nat) : EngState :=
  (List.range n).foldl (barStep commission strategy d) (initState initial_capital)

/-- The loop state after the whole bar loop of `run_backtest`. -/
def runBars (commission initial_capital : ℚ) (strategy : DataFrame → Action)
    (d : DataFrame) : EngState :=
  runUpTo commission initial_capital strategy d d.close.length

/-- Embeds `equity_series.pct_change().dropna()` (backtest_engine.py line 103).
Faithful to the pandas computation whenever every predecessor entry is
nonzero (then exactly the first `NaN` is dropped); a zero predecessor would
give `±inf`/`NaN` in pandas, which `ℚ` cannot represent. -/
def pct_change_dropna (l : List ℚ) : List ℚ :=
  (l.zip (l.drop 1)).map fun p => (p.2 - p.1) / p.1

/-! ### Non-finite float values

`FVal` represents the result of numpy / pandas float arithmetic where
division by zero can occur: a finite rational, `inf`, `-inf` or `NaN`. -/

/-- A numpy float result: finite, `inf`, `-inf` or `NaN`. -/
inductive FVal
  | fin (q : ℚ)
  | inf
  | neginf
  | nan
deriving DecidableEq

/-- numpy float division `x / y`: ordinary division for `y ≠ 0`, and
`inf` / `-inf` / `NaN` for division of a positive / negative / zero
numerator by zero. -/
def fdiv (x y : ℚ) : FVal :=
  if y ≠ 0 then .fin (x / y)
  else if 0 < x then .inf
  else if x < 0 then .neginf
  else .nan

/-- Float comparison `a <= b`: any comparison with `NaN` is false. -/
def fle : FVal → FVal → Bool
  | .nan, _ => false
  | _, .nan => false
  | .neginf, _ => true
  | _, .inf => true
  | .fin a, .fin b => decide (a ≤ b)
  | .inf, _ => false
  | .fin _, .neginf => false

/-- Float comparison `a > b` (used by `result['score'] > self.best_score`
in optimization.py line 82): false whenever either side is `NaN`. -/
def fgt (a b : FVal) : Bool :=
  fle b a && !(fle a b)

/-- The binary step of a pandas `min` with the default `skipna=True`:
`NaN` acts as "no value yet". -/
def fmin2 (a b : FVal) : FVal :=
  match a, b with
  | .nan, b => b
  | a, .nan => a
  | a, b => if fle a b then a else b

/-- pandas `Series.min()` (skipna): the minimum of the non-`NaN` entries,
`NaN` when the series is empty or all-`NaN`. -/
def fminList (l : List FVal) : FVal :=
  l.foldl fmin2 .nan

/-- Embeds `Series.cumsum()` starting from a running total `acc`. -/
def cumsumFrom (acc : ℚ) : List ℚ → List ℚ
  | [] => []
  | x :: xs => (acc + x) :: cumsumFrom (acc + x) xs

/-- Embeds `returns.cumsum()` (backtest_engine.py line 141). -/
def cumsum (l : List ℚ) : List ℚ :=
  cumsumFrom 0 l

/-- Embeds `expanding().max()` continued with running maximum `m`. -/
def runningMaxFrom (m : ℚ) : List ℚ → List ℚ
  | [] => []
  | x :: xs => max m x :: runningMaxFrom (max m x) xs

/-- Embeds `returns.cumsum().expanding().max()` (backtest_engine.py line 141). -/
def runningMax : List ℚ → List ℚ
  | [] => []
  | x :: xs => x :: runningMaxFrom x xs

/-- Embeds `drawdown = (returns.cumsum() - cummax) / cummax`
(backtest_engine.py line 142), elementwise with float division. -/
def drawdownList (cum cmax : List ℚ) : List FVal :=
  (cum.zip cmax).map fun p => fdiv (p.1 - p.2) p.2

/-- Embeds `max_drawdown = drawdown.min()` (backtest_engine.py lines 141–143). -/
def max_drawdown_val (returns : List ℚ) : FVal :=
  fminList (drawdownList (cumsum returns) (runningMax (cumsum returns)))

/-- Embeds `returns.mean()`: `0` on the empty list stands in for pandas `NaN`;
no theorem below depends on that case. -/
def listMean (l : List ℚ) : ℚ :=
  l.sum / l.length

/-- The sample variance with pandas' default `ddof=1`; the degenerate
divisors (`n ≤ 1`, pandas `NaN`) are never relied upon by any theorem. -/
def listVar (l : List ℚ) : ℚ :=
  ((l.map fun x => (x - listMean l) ^ 2).sum) / ((l.length : ℚ) - 1)

/-- Embeds `returns.std()` (pandas, `ddof=1`). -/
noncomputable def listStd (l : List ℚ) : ℝ :=
  Real.sqrt (listVar l)

/-- Embeds `sharpe_ratio = np.sqrt(252) * returns.mean() / returns.std()`
(backtest_engine.py line 136). -/
noncomputable def sharpe_ratio_val (returns : List ℚ) : ℝ :=
  Real.sqrt 252 * (listMean returns : ℝ) / listStd returns

/-- Embeds `sortino_ratio` (backtest_engine.py lines 137–138). -/
noncomputable def sortino_ratio_val (returns : List ℚ) : ℝ :=
  let downside := returns.filter fun x => decide (x < 0)
  if 0 < downside.length then
    Real.sqrt 252 * (listMean returns : ℝ) / listStd downside
  else 0

/-- Embeds `[t for t in trades if t['type'] == 'sell']`. -/
def sellsOf (trades : List Trade) : List Trade :=
  trades.filter fun t => t.type == TradeType.sell

/-- Python list indexing `trades[i]` with an `int` index: a negative index
counts from the end.  (Out-of-range access would be an `IndexError`; every
use below is proved in range.) -/
def pyGetTrade (l : List Trade) (i : Int) : Trade :=
  if 0 ≤ i then l.getD i.toNat default
  else l.getD (l.length - (-i).toNat) default

/-- Embeds `trades[trades.index(t) - 1]['capital']` (backtest_engine.py lines
146–147, 151–152): `list.index` returns the index of the *first* equal
element. -/
def prevCapital (trades : List Trade) (t : Trade) : ℚ :=
  (pyGetTrade trades ((trades.indexOf t : Int) - 1)).capital

/-- Embeds `winning_trades` (backtest_engine.py line 146). -/
def winning_trades (trades : List Trade) : List Trade :=
  trades.filter fun t =>
    t.type == TradeType.sell && decide (prevCapital trades t < t.capital)

/-- Embeds `losing_trades` (backtest_engine.py line 147). -/
def losing_trades (trades : List Trade) : List Trade :=
  trades.filter fun t =>
    t.type == TradeType.sell && decide (t.capital ≤ prevCapital trades t)

/-- The six fields returned by `BacktestEngine._calculate_metrics`. -/
structure Metrics where
  sharpe_ratio : ℝ
  sortino_ratio : ℝ
  max_drawdown : FVal
  win_rate : ℚ
  profit_factor : FVal
  avg_trade : ℚ

/-- Embeds `BacktestEngine._calculate_metrics` (backtest_engine.py lines 123–164).
Returns `none` for the one uncaught exception this function can raise: the
`ZeroDivisionError` of `win_rate = len(winning) / len(sells)` when there are
at least two trades but no sell trade. -/
noncomputable def calculate_metrics (returns : List ℚ) (trades : List Trade) :
    Option Metrics :=
  if trades.length < 2 then
    some ⟨0, 0, .fin 0, 0, .fin 0, 0⟩
  else
    let sells := sellsOf trades
    if sells.length = 0 then none
    else
      let w := winning_trades trades
      let l := losing_trades trades
      let total_profit := (w.map fun t => t.capital - prevCapital trades t).sum
      let total_loss := |(l.map fun t => t.capital - prevCapital trades t).sum|
      some
        { sharpe_ratio := sharpe_ratio_val returns
          sortino_ratio := sortino_ratio_val returns
          max_drawdown := max_drawdown_val returns
          win_rate := (w.length : ℚ) / (sells.length : ℚ)
          profit_factor :=
            if 0 < total_loss then .fin (total_profit / total_loss) else .inf
          avg_trade := (total_profit - total_loss) / (sells.length : ℚ) }

/-- Embeds `required_columns` of `HistoricalDataManager.preprocess_data`. -/
def required_columns : List String :=
  ["open", "high", "low", "close", "volume"]

/-- Embeds `HistoricalDataManager.preprocess_data` (historical_data_manager.py
lines 104–134): raise `ValueError` when a required column is missing,
otherwise sort the index, drop duplicate index entries, forward-fill and add
the `returns` / `log_returns` columns.  On the modelled frame the index is
already strictly increasing, duplicate free and complete, so the three
cleaning steps are the identity. -/
def preprocess_data (d : DataFrame) : Except PyError DataFrame :=
  if required_columns.all (fun c => d.columns.contains c) then
    .ok ⟨d.columns ++ ["returns", "log_returns"], d.close⟩
  else
    .error .valueError

/-- The results dictionary built by `run_backtest` (lines 106–119), reduced
to the numeric entries the claims are about. -/
structure BacktestResult where
  initial_capital : ℚ
  final_capital : ℚ
  total_return : ℚ
  trades : List Trade
  equity_curve : List ℚ
  returns : List ℚ
  metrics : Metrics

/-- Embeds `BacktestEngine.run_backtest` (backtest_engine.py lines 34–121) on an
already-loaded data window: preprocess, run the bar loop, then build the
results dictionary.  `equity_curve[-1]` on an empty equity curve raises
`IndexError` (dictionary entries are evaluated in source order, so this
happens before `_calculate_metrics` is reached). -/
noncomputable def run_backtest (commission initial_capital : ℚ)
    (strategy : DataFrame → Action) (d : DataFrame) :
    Except PyError BacktestResult :=
  match preprocess_data d with
  | .error e => .error e
  | .ok data =>
    let s := runBars commission initial_capital strategy data
    match s.equity.getLast? with
    | none => .error .indexError
    | some final =>
      let rets := pct_change_dropna s.equity
      match calculate_metrics rets s.trades with
      | none => .error .zeroDivisionError
      | some m =>
        .ok ⟨initial_capital, final, final / initial_capital - 1,
             s.trades, s.equity, rets, m⟩

/-- Projection: the `win_rate` metric of a finished backtest. -/
def winRateOf : Except PyError BacktestResult → Option ℚ
  | .ok r => some r.metrics.win_rate
  | .error _ => none

/-- Projection: the `max_drawdown` metric of a finished backtest. -/
def maxDrawdownOf : Except PyError BacktestResult → Option FVal
  | .ok r => some r.metrics.max_drawdown
  | .error _ => none

/-- Projection: the `total_return` entry of a finished backtest. -/
def totalReturnOf : Except PyError BacktestResult → Option ℚ
  | .ok r => some r.total_return
  | .error _ => none

/-- Projection: the `final_capital` entry of a finished backtest. -/
def finalCapitalOf : Except PyError BacktestResult → Option ℚ
  | .ok r => some r.final_capital
  | .error _ => none

/-- Projection: the `trades` list of a finished backtest. -/
def tradesOf : Except PyError BacktestResult → List Trade
  | .ok r => r.trades
  | .error _ => []

/-! ### `StrategyOptimizer` (optimization.py lines 10–132)

A parameter dictionary is modelled as the association list
`param_names.zip c` (`dict(zip(param_names, params))`, line 63), and
`_evaluate_params` — which builds a strategy from the parameters, runs a
backtest and reads off `results['metrics'][self.objective_function]` — is
abstracted into an evaluation function from a parameter assignment to its
score, since the backtest it runs is a pure function of the parameters once
the engine, data window and objective are fixed.  A score is a float value
(`FVal`), not a rational: the objective metrics can be non-finite on valid
data (for example `sharpe_ratio`, the default objective, is `NaN` for any
run whose equity curve is flat, and `-inf` when the mean return is negative
with zero variance), and the comparison `result['score'] > self.best_score`
follows float semantics — it is false whenever the score is `NaN`. -/

/-- The mutable state set up by `StrategyOptimizer.__init__` (lines 25–29):
`best_params = None`, `best_score = float('-inf')`, `results = []`.  Each
entry of `results` keeps a parameter assignment and its float score. -/
structure OptimizerState (P : Type) where
  best_params : Option P
  best_score : FVal
  results : List (P × FVal)

/-- A freshly constructed `StrategyOptimizer`. -/
def freshOptimizer (P : Type) : OptimizerState P :=
  ⟨none, .neginf, []⟩

/-- Embeds `itertools.product(*param_values)` (line 57): the Cartesian product of
the value lists, rightmost position varying fastest. -/
def prodLists {α : Type} : List (List α) → List (List α)
  | [] => [[]]
  | xs :: rest => xs.flatMap fun x => (prodLists rest).map fun ys => x :: ys

/-- Processing one collected future (lines 77–84): append the evaluation to
`self.results`, and update `best_score` / `best_params` when the new score
is strictly greater under the float comparison
`result['score'] > self.best_score` — false whenever either side is
`NaN`. -/
def evalStep {P : Type} (o : OptimizerState P) (pr : P × FVal) :
    OptimizerState P :=
  let o1 : OptimizerState P := { o with results := o.results ++ [pr] }
  if fgt pr.2 o1.best_score then
    { o1 with best_score := pr.2, best_params := some pr.1 }
  else o1

/-- The evaluations submitted by `grid_search`, in submission order: one per
element of the Cartesian product of the grid. -/
def gridEvals {V : Type} (evalScore : List (String × V) → FVal)
    (param_names : List String) (param_values : List (List V)) :
    List (List (String × V) × FVal) :=
  (prodLists param_values).map fun c =>
    (param_names.zip c, evalScore (param_names.zip c))

/-- The dictionary returned by `grid_search` (lines 86–90). -/
structure GridResult (P : Type) where
  best_params : Option P
  best_score : FVal
  all_results : List (P × FVal)

/-- Embeds `StrategyOptimizer.grid_search` (optimization.py lines 31–90).  The
futures are iterated in submission order and `future.result()` blocks, so
the `self.results` appends and best-score updates happen in deterministic
grid-enumeration order; the parallel execution is therefore modelled by a
sequential fold.  Returns the result dictionary together with the updated
optimizer state. -/
def grid_search {V : Type} (evalScore : List (String × V) → FVal)
    (param_names : List String) (param_values : List (List V))
    (o : OptimizerState (List (String × V))) :
    GridResult (List (String × V)) × OptimizerState (List (String × V)) :=
  let o2 := (gridEvals evalScore param_names param_values).foldl evalStep o
  (⟨o2.best_params, o2.best_score, o2.results⟩, o2)

/-! ### `MonteCarloSimulator` (optimization.py lines 134–252) -/

/-- Embeds `MonteCarloSimulator._create_simulated_prices` (lines 245–252):
`prices = [initial_price]`, then one append per resampled return with
`prices[-1] * (1 + ret)`. -/
def create_simulated_prices (initial_price : ℚ) :
    List ℚ → List ℚ
  | [] => [initial_price]
  | ret :: rest =>
    initial_price :: create_simulated_prices (initial_price * (1 + ret)) rest

/-- The `returns` column added by `preprocess_data`
(`data['close'].pct_change()`, line 129): same length as `close`, with the
leading pandas `NaN` represented by `0` — only what `run_simulation` reads
from it (its length, as `size=len(original_returns)`) is relied upon. -/
def pct_change_column (l : List ℚ) : List ℚ :=
  match l with
  | [] => []
  | _ :: _ => 0 :: pct_change_dropna l

/-- One iteration of the simulation loop of
`MonteCarloSimulator.run_simulation` (optimization.py lines 185–208), given
the bootstrap-resampled returns `resampled`
(`np.random.choice(original_returns, size=len(original_returns))`, line
243, abstracted over the random draw).  `data['close'].iloc[0]` on an empty
frame raises `IndexError`.  Otherwise the pandas assignment
`simulated_data['close'] = simulated_prices` raises `ValueError` unless the
array length equals the frame length; and were the lengths ever to match,
the call `run_backtest(..., data=simulated_data)` (lines 201–208) would
raise `TypeError`, because `run_backtest` accepts no `data` keyword
argument.  No branch returns normally. -/
def run_simulation_trial (d : DataFrame) (resampled : List ℚ) :
    Except PyError (List ℚ) :=
  match d.close.head? with
  | none => .error .indexError
  | some initial_price =>
    let simulated_prices := create_simulated_prices initial_price resampled
    if simulated_prices.length = d.close.length then .error .typeError
    else .error .valueError

/-! ### Concrete inputs used by counterexamples and witnesses -/

/-- A strategy that recommends `buy` on the first bar, `sell` on the
second, `buy` on the third, and `hold` afterwards (it can key on the length
of the visible prefix because the engine shows it `data.iloc[:i+1]`). -/
def stratBSB : DataFrame → Action := fun d =>
  if d.close.length = 1 then .buy
  else if d.close.length = 2 then .sell
  else if d.close.length = 3 then .buy
  else .hold

/-- A strategy that recommends `buy` on the first bar, `sell` on the
second, and `hold` afterwards. -/
def stratBS : DataFrame → Action := fun d =>
  if d.close.length = 1 then .buy
  else if d.close.length = 2 then .sell
  else .hold

/-- A three-bar window with a price dip: closes `[2, 1, 2]`. -/
def dataDip : DataFrame := ⟨required_columns, [2, 1, 2]⟩

/-- A three-bar window with constant close `1`. -/
def dataFlat3 : DataFrame := ⟨required_columns, [1, 1, 1]⟩

/-- A two-bar window with constant close `1`. -/
def dataFlat2 : DataFrame := ⟨required_columns, [1, 1]⟩

/-- A data window that is empty after preprocessing (all required columns
present, zero rows) — what `_fetch_data` returns when no local file exists. -/
def emptyFrame : DataFrame := ⟨required_columns, []⟩

/-- A one-bar data window missing the required `close` column. -/
def noCloseFrame : DataFrame := ⟨["open", "high", "low", "volume"], [1]⟩

/-! ## Helper lemmas -/

theorem runUpTo_succ (c ic : ℚ) (strategy : DataFrame → Action) (d : DataFrame)
    (n : Nat) :
    runUpTo c ic strategy d (n + 1) =
      barStep c strategy d (runUpTo c ic strategy d n) n := by
  simp [runUpTo, List.range_succ]

theorem tradeStep_equity (c : ℚ) (a : Action) (p : ℚ) (ts : Nat) (s : EngState) :
    (tradeStep c a p ts s).equity = s.equity := by
  cases a <;> simp only [tradeStep] <;> split <;> rfl

theorem getD_take {α : Type} (x : α) :
    ∀ (l : List α) (n j : Nat), j < n → (l.take n).getD j x = l.getD j x
  | [], _, _, _ => by simp
  | _ :: _, 0, _, h => by omega
  | _ :: _, _ + 1, 0, _ => by simp
  | _ :: as, n + 1, j + 1, h => by
    simp only [List.take_succ_cons, List.getD_cons_succ]
    exact getD_take x as n j (by omega)

theorem getD_concat {α : Type} (l : List α) (v x : α) :
    (l ++ [v]).getD l.length x = v := by
  induction l with
  | nil => rfl
  | cons a as ih => simp [ih]

theorem getD_concat_len {α : Type} (l : List α) (v x : α) (n : Nat)
    (h : l.length = n) : (l ++ [v]).getD n x = v := by
  subst h
  exact getD_concat l v x

theorem getD_append_lt {α : Type} (x : α) :
    ∀ (l l₂ : List α) (j : Nat), j < l.length → (l ++ l₂).getD j x = l.getD j x
  | [], _, _, h => by simp at h
  | _ :: _, _, 0, _ => by rfl
  | _ :: as, l₂, j + 1, h => by
    simp only [List.cons_append, List.getD_cons_succ]
    exact getD_append_lt x as l₂ j (by simpa using h)

theorem currentData_take (d : DataFrame) (i k : Nat) (hk : k ≤ i) :
    currentData (dfTake d (i + 1)) k = currentData d k := by
  simp only [currentData, dfTake, List.take_take]
  congr 2
  omega

theorem barStep_take (c : ℚ) (strategy : DataFrame → Action) (d : DataFrame)
    (i k : Nat) (hk : k ≤ i) (s : EngState) :
    barStep c strategy (dfTake d (i + 1)) s k = barStep c strategy d s k := by
  have h1 : currentData (dfTake d (i + 1)) k = currentData d k :=
    currentData_take d i k hk
  have h2 : (dfTake d (i + 1)).close.getD k 0 = d.close.getD k 0 :=
    getD_take 0 d.close (i + 1) k (by omega)
  simp only [barStep, h1, h2]

theorem runUpTo_take (c ic : ℚ) (strategy : DataFrame → Action) (d : DataFrame)
    (i k : Nat) (hk : k ≤ i) :
    runUpTo c ic strategy (dfTake d (i + 1)) (k + 1) =
      runUpTo c ic strategy d (k + 1) := by
  induction k with
  | zero =>
    rw [runUpTo_succ, runUpTo_succ, barStep_take c strategy d i 0 (by omega)]
    rfl
  | succ k ih =>
    rw [runUpTo_succ c ic strategy (dfTake d (i + 1)) (k + 1),
      runUpTo_succ c ic strategy d (k + 1), ih (by omega),
      barStep_take c strategy d i (k + 1) hk]

theorem barStep_equity_eq (c : ℚ) (strategy : DataFrame → Action)
    (d : DataFrame) (s : EngState) (i : Nat) :
    (barStep c strategy d s i).equity =
      s.equity ++
        [(barStep c strategy d s i).capital +
          (if 0 < (barStep c strategy d s i).position
           then (barStep c strategy d s i).position * d.close.getD i 0
           else 0)] := by
  simp [barStep, tradeStep_equity]

theorem equity_length (c ic : ℚ) (strategy : DataFrame → Action)
    (d : DataFrame) (n : Nat) :
    (runUpTo c ic strategy d n).equity.length = n := by
  induction n with
  | zero => rfl
  | succ n ih =>
    rw [runUpTo_succ, barStep_equity_eq]
    simp [ih]

theorem equity_take (c ic : ℚ) (strategy : DataFrame → Action) (d : DataFrame)
    (m n : Nat) (h : m ≤ n) :
    (runUpTo c ic strategy d n).equity.take m =
      (runUpTo c ic strategy d m).equity := by
  induction n with
  | zero =>
    have hm : m = 0 := by omega
    subst hm
    rfl
  | succ n ih =>
    rcases Nat.lt_or_ge m (n + 1) with hlt | hge
    · rw [runUpTo_succ, barStep_equity_eq,
        List.take_append_of_le_length (by rw [equity_length]; omega)]
      exact ih (by omega)
    · have hm : m = n + 1 := by omega
      subst hm
      exact List.take_of_length_le (by rw [equity_length])

theorem equity_at_bar (c ic : ℚ) (strategy : DataFrame → Action)
    (d : DataFrame) (i n : Nat) (hi : i < n) :
    (runUpTo c ic strategy d n).equity.getD i 0 =
      (runUpTo c ic strategy d (i + 1)).capital +
        (if 0 < (runUpTo c ic strategy d (i + 1)).position
         then (runUpTo c ic strategy d (i + 1)).position * d.close.getD i 0
         else 0) := by
  have h1 : (runUpTo c ic strategy d n).equity.getD i 0 =
      (runUpTo c ic strategy d (i + 1)).equity.getD i 0 := by
    rw [← equity_take c ic strategy d (i + 1) n (by omega),
      getD_take 0 _ (i + 1) i (by omega)]
  rw [h1, runUpTo_succ, barStep_equity_eq]
  exact getD_concat_len _ _ _ i (equity_length c ic strategy d i)

/-! ## Claim theorems -/

/-- C1 (no-lookahead): for every bar `i` of the input series, the
recommendation the engine obtains at any bar `k ≤ i` and the engine state
after processing bar `k` are identical between a run on the full series and
a run on the series truncated at `i + 1`: the recommendation at bar `k` is
computed from exactly the prefix `data.iloc[:k+1]`, which truncation at
`i + 1 > k` leaves unchanged. -/
theorem no_lookahead (c ic : ℚ) (strategy : DataFrame → Action) (d : DataFrame)
    (i k : Nat) (_hi : i < d.close.length) (hk : k ≤ i) :
    strategy (currentData (dfTake d (i + 1)) k) = strategy (currentData d k) ∧
    runUpTo c ic strategy (dfTake d (i + 1)) (k + 1) =
      runUpTo c ic strategy d (k + 1) :=
  ⟨congrArg strategy (currentData_take d i k hk),
   runUpTo_take c ic strategy d i k hk⟩

theorem no_lookahead_witness :
    stratBSB (currentData (dfTake dataDip (1 + 1)) 1) =
      stratBSB (currentData dataDip 1) ∧
    runUpTo (1/2) 4 stratBSB (dfTake dataDip (1 + 1)) (1 + 1) =
      runUpTo (1/2) 4 stratBSB dataDip (1 + 1) :=
  no_lookahead (1/2) 4 stratBSB dataDip 1 1 (by decide) (by decide)

/-- C2 (two-state trading machine): with a nonzero price `p` (at `p = 0`
the Python float division produces non-finite values that `ℚ` cannot
represent), the per-bar trade block behaves as the two-state machine: from
FLAT (`position = 0`) a `buy` deploys all capital and appends one trade;
from LONG (`position > 0`) a `sell` liquidates at `p * (1 - commission)`
and appends one trade; `hold`, a `buy` while LONG and a `sell` while FLAT
leave the state unchanged and append nothing. -/
theorem trade_step_state_machine (c p : ℚ) (ts : Nat) (s : EngState)
    (_hp : p ≠ 0) :
    (s.position = 0 →
      tradeStep c .buy p ts s =
        { s with
          position := s.capital / p
          capital := s.capital - s.capital / p * p * (1 + c)
          trades := s.trades ++
            [⟨ts, .buy, p, s.capital / p,
              s.capital - s.capital / p * p * (1 + c)⟩] }) ∧
    (0 < s.position →
      tradeStep c .sell p ts s =
        { s with
          capital := s.capital + s.position * p * (1 - c)
          trades := s.trades ++
            [⟨ts, .sell, p, s.position,
              s.capital + s.position * p * (1 - c)⟩]
          position := 0 }) ∧
    tradeStep c .hold p ts s = s ∧
    (0 < s.position → tradeStep c .buy p ts s = s) ∧
    (s.position = 0 → tradeStep c .sell p ts s = s) := by
  refine ⟨fun h => ?_, fun h => ?_, rfl, fun h => ?_, fun h => ?_⟩
  · simp [tradeStep, h]
  · simp [tradeStep, h]
  · simp [tradeStep, not_le.2 h]
  · simp [tradeStep, h]

theorem trade_step_state_machine_witness :
    tradeStep (1/2) Action.hold 2 0 ⟨4, 0, [], []⟩ = ⟨4, 0, [], []⟩ ∧
    tradeStep (1/2) Action.buy 2 0 ⟨4, 0, [], []⟩ =
      { capital := 4 - 4 / 2 * 2 * (1 + 1/2)
        position := 4 / 2
        trades := [⟨0, .buy, 2, 4 / 2, 4 - 4 / 2 * 2 * (1 + 1/2)⟩]
        equity := [] } :=
  ⟨(trade_step_state_machine (1/2) 2 0 ⟨4, 0, [], []⟩ (by decide)).2.2.1,
   (trade_step_state_machine (1/2) 2 0 ⟨4, 0, [], []⟩ (by decide)).1 rfl⟩

/-- C4 (degenerate-metrics policy): whenever a run records fewer than two
trades, `_calculate_metrics` returns all six metrics equal to zero. -/
theorem degenerate_metrics_zero (returns : List ℚ) (trades : List Trade)
    (h : trades.length < 2) :
    calculate_metrics returns trades = some ⟨0, 0, .fin 0, 0, .fin 0, 0⟩ := by
  simp [calculate_metrics, h]

theorem degenerate_metrics_zero_witness :
    calculate_metrics [] [] = some ⟨0, 0, .fin 0, 0, .fin 0, 0⟩ :=
  degenerate_metrics_zero [] [] (by decide)

/-- C5 counterexample: the claimed error classes do not exist in the code.
On an empty data window `run_backtest` fails with `IndexError` (from
`equity_curve[-1]`), not with a `DataUnavailableError`; with a required
column missing it fails with the plain `ValueError` raised by
`preprocess_data`, not with a `DataFormatError`. -/
theorem typed_errors_counterexample :
    run_backtest (1/1000) 10000 stratBSB emptyFrame = .error .indexError ∧
    PyError.indexError ≠ PyError.dataUnavailableError ∧
    run_backtest (1/1000) 10000 stratBSB noCloseFrame = .error .valueError ∧
    PyError.valueError ≠ PyError.dataFormatError :=
  ⟨rfl, by decide, rfl, by decide⟩

/-- C5 amended: if the supplied data window is empty after provider
preprocessing, `run_backtest` terminates with the (uncaught, untyped)
`IndexError` raised when reading the final equity value; if a required
OHLCV column is missing it terminates with the `ValueError` raised by
`preprocess_data`.  In both cases the call returns that error to its
immediate caller — no retry, no partial result. -/
theorem raised_errors_amended (c ic : ℚ) (strategy : DataFrame → Action)
    (d : DataFrame) :
    (required_columns.all (fun col => d.columns.contains col) = true →
      d.close = [] → run_backtest c ic strategy d = .error .indexError) ∧
    (required_columns.all (fun col => d.columns.contains col) = false →
      run_backtest c ic strategy d = .error .valueError) := by
  constructor
  · intro hcols hempty
    simp only [run_backtest, preprocess_data]
    rw [if_pos hcols]
    simp [runBars, hempty, runUpTo, initState]
  · intro hcols
    have hnot : ¬ ∀ x ∈ required_columns, x ∈ d.columns := by simpa using hcols
    simp [run_backtest, preprocess_data, hnot]

theorem raised_errors_amended_witness :
    run_backtest (1/1000) 2 stratBS emptyFrame = .error .indexError ∧
    run_backtest (1/1000) 2 stratBS noCloseFrame = .error .valueError :=
  ⟨(raised_errors_amended (1/1000) 2 stratBS emptyFrame).1 (by decide) rfl,
   (raised_errors_amended (1/1000) 2 stratBS noCloseFrame).2 (by decide)⟩

theorem run_backtest_ok_fields (c ic : ℚ) (strategy : DataFrame → Action)
    (d : DataFrame) (r : BacktestResult)
    (h : run_backtest c ic strategy d = .ok r) :
    r.initial_capital = ic ∧ r.total_return = r.final_capital / ic - 1 := by
  unfold run_backtest at h
  split at h
  · exact absurd h (by simp)
  · dsimp only at h
    split at h
    · exact absurd h (by simp)
    · split at h
      · exact absurd h (by simp)
      · injection h with h
        subst h
        exact ⟨rfl, rfl⟩

/-- C3 counterexample: the equity value recorded at a bar is *not* always
`capital + position * close[i]`.  With commission `1/2`, initial capital
`4` and closes `[2, 1, 2]`, a buy–sell–buy strategy re-enters at bar 2 with
negative capital, so the position becomes negative (`-1/2`); the engine
then records equity `capital = 1/2` (the `position > 0` test fails), while
the claimed formula gives `1/2 + (-1/2) * 2 = -1/2`. -/
theorem equity_conservation_counterexample :
    (runBars (1/2) 4 stratBSB dataDip).equity.getD 2 0 = 1/2 ∧
    (runBars (1/2) 4 stratBSB dataDip).capital = 1/2 ∧
    (runBars (1/2) 4 stratBSB dataDip).position = -(1/2) ∧
    dataDip.close.getD 2 0 = 2 ∧
    (runBars (1/2) 4 stratBSB dataDip).equity.getD 2 0 ≠
      (runBars (1/2) 4 stratBSB dataDip).capital +
        (runBars (1/2) 4 stratBSB dataDip).position * dataDip.close.getD 2 0 := by
  with_unfolding_all decide

/-- C3 amended: for every run and bar `i`, the equity value appended at bar
`i` equals `capital + position * close[i]` whenever the position after the
bar is *nonnegative* (in particular it is exactly `capital` when flat);
when the position is negative (reachable when a buy is executed with
negative capital) the recorded equity is `capital` alone.  The reported
`total_return` always satisfies
`initial_capital * (1 + total_return) = final_capital` exactly, provided
`initial_capital ≠ 0`. -/
theorem equity_conservation_amended (c ic : ℚ) (strategy : DataFrame → Action)
    (d : DataFrame) (i : Nat) (hi : i < d.close.length) :
    ((0 ≤ (runUpTo c ic strategy d (i + 1)).position →
      (runBars c ic strategy d).equity.getD i 0 =
        (runUpTo c ic strategy d (i + 1)).capital +
          (runUpTo c ic strategy d (i + 1)).position * d.close.getD i 0) ∧
     ((runUpTo c ic strategy d (i + 1)).position < 0 →
      (runBars c ic strategy d).equity.getD i 0 =
        (runUpTo c ic strategy d (i + 1)).capital)) ∧
    (∀ r : BacktestResult, ic ≠ 0 → run_backtest c ic strategy d = .ok r →
      ic * (1 + r.total_return) = r.final_capital) := by
  refine ⟨⟨fun hpos => ?_, fun hneg => ?_⟩, fun r hic hr => ?_⟩
  · rw [runBars, equity_at_bar c ic strategy d i _ hi]
    rcases lt_or_eq_of_le hpos with h | h
    · rw [if_pos h]
    · rw [if_neg (by rw [← h]; exact lt_irrefl 0), ← h, zero_mul]
  · rw [runBars, equity_at_bar c ic strategy d i _ hi,
      if_neg (not_lt.2 (le_of_lt hneg)), add_zero]
  · obtain ⟨-, h2⟩ := run_backtest_ok_fields c ic strategy d r hr
    rw [h2]
    field_simp

theorem equity_conservation_amended_witness :
    ((0 ≤ (runUpTo 0 1 stratBS dataFlat3 (0 + 1)).position →
      (runBars 0 1 stratBS dataFlat3).equity.getD 0 0 =
        (runUpTo 0 1 stratBS dataFlat3 (0 + 1)).capital +
          (runUpTo 0 1 stratBS dataFlat3 (0 + 1)).position *
            dataFlat3.close.getD 0 0) ∧
     ((runUpTo 0 1 stratBS dataFlat3 (0 + 1)).position < 0 →
      (runBars 0 1 stratBS dataFlat3).equity.getD 0 0 =
        (runUpTo 0 1 stratBS dataFlat3 (0 + 1)).capital)) ∧
    (∀ r : BacktestResult, (1 : ℚ) ≠ 0 →
      run_backtest 0 1 stratBS dataFlat3 = .ok r →
      1 * (1 + r.total_return) = r.final_capital) :=
  equity_conservation_amended 0 1 stratBS dataFlat3 0 (by decide)

/-! ## Optimizer lemmas -/

theorem evalStep_results {P : Type} (o : OptimizerState P) (pr : P × FVal) :
    (evalStep o pr).results = o.results ++ [pr] := by
  simp only [evalStep]
  split <;> rfl

theorem foldl_evalStep_results {P : Type} (l : List (P × FVal)) :
    ∀ o : OptimizerState P, (l.foldl evalStep o).results = o.results ++ l := by
  induction l with
  | nil => intro o; simp
  | cons pr rest ih =>
    intro o
    rw [List.foldl_cons, ih, evalStep_results]
    simp

theorem prodLists_length {α : Type} (ls : List (List α)) :
    (prodLists ls).length = (ls.map List.length).prod := by
  induction ls with
  | nil => rfl
  | cons xs rest ih =>
    simp only [prodLists, List.length_flatMap, Function.comp_def,
      List.length_map, List.map_const', List.sum_replicate, smul_eq_mul,
      List.map_cons, List.prod_cons, ih]

theorem fgt_fin_fin (s q : ℚ) : fgt (.fin s) (.fin q) = true ↔ q < s := by
  simp only [fgt, fle, Bool.and_eq_true, Bool.not_eq_true',
    decide_eq_true_eq, decide_eq_false_iff_not]
  exact ⟨fun h => lt_of_le_not_le h.1 h.2, fun h => ⟨le_of_lt h, not_le.2 h⟩⟩

theorem fgt_irrefl (a : FVal) : fgt a a = false := by
  cases a <;> simp [fgt, fle]

theorem fgt_nan_left (b : FVal) : fgt .nan b = false := by
  cases b <;> rfl

theorem fgt_neginf_left (s : FVal) : fgt .neginf s = false := by
  cases s <;> rfl

theorem fgt_neginf_iff (s : FVal) :
    fgt s .neginf = true ↔ s ≠ .nan ∧ s ≠ .neginf := by
  cases s <;> simp [fgt, fle]

theorem fgt_neginf_false_iff (s : FVal) :
    fgt s .neginf = false ↔ s = .nan ∨ s = .neginf := by
  cases s <;> simp [fgt, fle]

theorem fgt_true_left_ne (s q : FVal) (h : fgt s q = true) :
    s ≠ .nan ∧ s ≠ .neginf := by
  cases s <;> cases q <;> simp_all [fgt, fle]

theorem fgt_false_of_fgt (old q s : FVal) (h1 : fgt old q = false)
    (h2 : fgt s q = true) : fgt old s = false := by
  cases old with
  | nan => exact fgt_nan_left s
  | neginf => exact fgt_neginf_left s
  | inf => cases q <;> simp_all [fgt, fle]
  | fin a =>
    cases s with
    | nan =>
      rw [fgt_nan_left] at h2
      exact absurd h2 (by simp)
    | neginf =>
      obtain ⟨-, habs⟩ := fgt_true_left_ne _ _ h2
      exact absurd rfl habs
    | inf => rfl
    | fin c =>
      cases q with
      | nan =>
        rw [show fgt (.fin c) .nan = false from rfl] at h2
        exact absurd h2 (by simp)
      | inf =>
        rw [show fgt (.fin c) .inf = false from rfl] at h2
        exact absurd h2 (by simp)
      | neginf =>
        rw [show fgt (.fin a) .neginf = true from rfl] at h1
        exact absurd h1 (by simp)
      | fin b =>
        rw [← Bool.not_eq_true, fgt_fin_fin] at h1 ⊢
        rw [fgt_fin_fin] at h2
        exact fun h3 => h1 (lt_trans h2 h3)

/-- The relation between the running `best_score` / `best_params` and the
accumulated `results` that `grid_search` maintains, under float comparison
semantics: either no score so far has compared greater than the initial
`-inf` (every score is `NaN` or `-inf`) and best score / parameters are
still the initial ones, or the best score is an attained score that no
other score compares greater than, with the parameters of its first
attainer. -/
def BestInv {P : Type} (o : OptimizerState P) : Prop :=
  (o.best_score = .neginf ∧ o.best_params = none ∧
    ∀ pr ∈ o.results, fgt pr.2 .neginf = false) ∨
  (∃ q, o.best_score = q ∧ fgt q .neginf = true ∧
    (∃ pr ∈ o.results, pr.2 = q) ∧
    (∀ pr ∈ o.results, fgt pr.2 q = false) ∧
    o.best_params = (o.results.find? (fun pr => pr.2 == q)).map Prod.fst)

theorem evalStep_BestInv {P : Type} (o : OptimizerState P) (pr : P × FVal)
    (h : BestInv o) : BestInv (evalStep o pr) := by
  rcases h with ⟨hbs, hbp, hall⟩ | ⟨q, hbs, hq, ⟨pr0, hpr0, hq0⟩, hub, hbp⟩
  · cases hc : fgt pr.2 .neginf with
    | false =>
      left
      refine ⟨?_, ?_, ?_⟩
      · simp [evalStep, hbs, hc]
      · simp [evalStep, hbs, hc, hbp]
      · intro x hx
        rw [evalStep_results] at hx
        rcases List.mem_append.1 hx with hx | hx
        · exact hall x hx
        · simp at hx
          rw [hx]
          exact hc
    | true =>
      right
      obtain ⟨hsn, hsneg⟩ := (fgt_neginf_iff pr.2).1 hc
      refine ⟨pr.2, ?_, hc, ⟨pr, ?_, rfl⟩, ?_, ?_⟩
      · simp [evalStep, hbs, hc]
      · simp [evalStep_results]
      · intro x hx
        rw [evalStep_results] at hx
        rcases List.mem_append.1 hx with hx | hx
        · rcases (fgt_neginf_false_iff x.2).1 (hall x hx) with hx2 | hx2
          · rw [hx2]
            exact fgt_nan_left _
          · rw [hx2]
            exact fgt_neginf_left _
        · simp at hx
          rw [hx]
          exact fgt_irrefl pr.2
      · have hnone : o.results.find? (fun x => x.2 == pr.2) = none := by
          rw [List.find?_eq_none]
          intro x hx
          simp only [beq_iff_eq]
          intro hxpr
          rcases (fgt_neginf_false_iff x.2).1 (hall x hx) with hx2 | hx2
          · exact hsn (hxpr ▸ hx2)
          · exact hsneg (hxpr ▸ hx2)
        simp [evalStep, hbs, hc, evalStep_results, List.find?_append, hnone]
  · cases hc : fgt pr.2 q with
    | true =>
      right
      have hprgt : fgt pr.2 .neginf = true := by
        obtain ⟨hsn, hsneg⟩ := fgt_true_left_ne pr.2 q hc
        exact (fgt_neginf_iff pr.2).2 ⟨hsn, hsneg⟩
      refine ⟨pr.2, ?_, hprgt, ⟨pr, ?_, rfl⟩, ?_, ?_⟩
      · simp [evalStep, hbs, hc]
      · simp [evalStep_results]
      · intro x hx
        rw [evalStep_results] at hx
        rcases List.mem_append.1 hx with hx | hx
        · exact fgt_false_of_fgt x.2 q pr.2 (hub x hx) hc
        · simp at hx
          rw [hx]
          exact fgt_irrefl pr.2
      · have hnone : o.results.find? (fun x => x.2 == pr.2) = none := by
          rw [List.find?_eq_none]
          intro x hx
          simp only [beq_iff_eq]
          intro hxpr
          have := hub x hx
          rw [hxpr, hc] at this
          exact absurd this (by simp)
        simp [evalStep, hbs, hc, evalStep_results, List.find?_append, hnone]
    | false =>
      right
      refine ⟨q, ?_, hq, ⟨pr0, ?_, hq0⟩, ?_, ?_⟩
      · simp [evalStep, hbs, hc]
      · simp [evalStep_results, hpr0]
      · intro x hx
        rw [evalStep_results] at hx
        rcases List.mem_append.1 hx with hx | hx
        · exact hub x hx
        · simp at hx
          rw [hx]
          exact hc
      · have hsome : (o.results.find? (fun x => x.2 == q)).isSome := by
          rw [List.find?_isSome]
          exact ⟨pr0, hpr0, by simp [hq0]⟩
        obtain ⟨y, hy⟩ := Option.isSome_iff_exists.1 hsome
        simp [evalStep, hbs, hc, evalStep_results, List.find?_append, hy,
          hbp]

theorem foldl_evalStep_BestInv {P : Type} (l : List (P × FVal)) :
    ∀ o : OptimizerState P, BestInv o → BestInv (l.foldl evalStep o) := by
  induction l with
  | nil => intro o h; exact h
  | cons pr rest ih =>
    intro o h
    exact ih (evalStep o pr) (evalStep_BestInv o pr h)

/-- A scoring function whose every score is the float `NaN` — the value
`sharpe_ratio` (the default objective) takes on any run with a flat equity
curve. -/
def evalNaN : List (String × ℚ) → FVal := fun _ => FVal.nan

/-- A scoring function with constant finite score `0`. -/
def evalConst : List (String × ℚ) → FVal := fun _ => FVal.fin 0

/-- C6 counterexample: the best-score-equals-maximum contract fails when
the objective metric is float `NaN` on every grid point (reachable: the
default objective `sharpe_ratio` is `NaN` for a flat equity curve).  The
comparison `score > best_score` is false for `NaN`, so on a one-point grid
whose score is `NaN` the optimizer returns `best_score = -inf` — which is
not the score of any entry of `all_results` — and `best_params = None`
rather than the parameters of the first (only) grid point. -/
theorem grid_search_counterexample :
    (grid_search evalNaN ["a"] [[(1:ℚ)]]
        (freshOptimizer (List (String × ℚ)))).1.all_results =
      [([("a", 1)], FVal.nan)] ∧
    (grid_search evalNaN ["a"] [[(1:ℚ)]]
        (freshOptimizer (List (String × ℚ)))).1.best_score = .neginf ∧
    (grid_search evalNaN ["a"] [[(1:ℚ)]]
        (freshOptimizer (List (String × ℚ)))).1.best_params = none ∧
    (∀ pr ∈ (grid_search evalNaN ["a"] [[(1:ℚ)]]
        (freshOptimizer (List (String × ℚ)))).1.all_results,
      (grid_search evalNaN ["a"] [[(1:ℚ)]]
          (freshOptimizer (List (String × ℚ)))).1.best_score ≠ pr.2) ∧
    (grid_search evalNaN ["a"] [[(1:ℚ)]]
        (freshOptimizer (List (String × ℚ)))).1.best_params ≠
      some [("a", (1:ℚ))] := by
  decide

/-- C6 amended: on a freshly constructed optimizer, `grid_search` evaluates
exactly the Cartesian product of the grid — `all_results` has length equal
to the product of the candidate-value counts, unconditionally.  The best
score follows float comparison semantics: whenever some score compares
greater than the initial `-inf` (in particular whenever some score is a
finite float), `best_score` is an attained score that no score in
`all_results` compares greater than — the float maximum — and
`best_params` are the parameters of the first grid point (in deterministic
grid-enumeration order) attaining it; but when every score is `NaN` or
`-inf`, the returned `best_score` stays `-inf` and `best_params` stays
`None`, as the counterexample shows. -/
theorem grid_search_amended {V : Type} (evalScore : List (String × V) → FVal)
    (param_names : List String) (param_values : List (List V)) :
    (grid_search evalScore param_names param_values
        (freshOptimizer (List (String × V)))).1.all_results.length =
      (param_values.map List.length).prod ∧
    ((∃ pr ∈ (grid_search evalScore param_names param_values
        (freshOptimizer (List (String × V)))).1.all_results,
        fgt pr.2 .neginf = true) →
      ∃ q,
        (grid_search evalScore param_names param_values
            (freshOptimizer (List (String × V)))).1.best_score = q ∧
        (∃ pr ∈ (grid_search evalScore param_names param_values
            (freshOptimizer (List (String × V)))).1.all_results, pr.2 = q) ∧
        (∀ pr ∈ (grid_search evalScore param_names param_values
            (freshOptimizer (List (String × V)))).1.all_results,
          fgt pr.2 q = false) ∧
        (grid_search evalScore param_names param_values
            (freshOptimizer (List (String × V)))).1.best_params =
          ((grid_search evalScore param_names param_values
              (freshOptimizer (List (String × V)))).1.all_results.find?
            (fun pr => pr.2 == q)).map Prod.fst) ∧
    ((∀ pr ∈ (grid_search evalScore param_names param_values
        (freshOptimizer (List (String × V)))).1.all_results,
        fgt pr.2 .neginf = false) →
      (grid_search evalScore param_names param_values
          (freshOptimizer (List (String × V)))).1.best_score = .neginf ∧
      (grid_search evalScore param_names param_values
          (freshOptimizer (List (String × V)))).1.best_params = none) := by
  have hres : (grid_search evalScore param_names param_values
      (freshOptimizer (List (String × V)))).1.all_results =
      gridEvals evalScore param_names param_values := by
    simp [grid_search, foldl_evalStep_results, freshOptimizer]
  have hinv : BestInv ((gridEvals evalScore param_names param_values).foldl
      evalStep (freshOptimizer (List (String × V)))) :=
    foldl_evalStep_BestInv _ _
      (Or.inl ⟨rfl, rfl, fun pr hpr => by simp [freshOptimizer] at hpr⟩)
  refine ⟨?_, ?_, ?_⟩
  · rw [hres]
    simp [gridEvals, prodLists_length]
  · rintro ⟨pr, hpr, hgt⟩
    rcases hinv with ⟨-, -, hall⟩ | ⟨q, hbs, -, hatt, hub, hbp⟩
    · exact absurd hgt (by rw [hall pr hpr]; simp)
    · exact ⟨q, hbs, hatt, hub, hbp⟩
  · intro hall
    rcases hinv with ⟨hbs, hbp, -⟩ | ⟨q, -, hqgt, ⟨pr0, hpr0, hq0⟩, -, -⟩
    · exact ⟨hbs, hbp⟩
    · exact absurd hqgt (by rw [← hq0, hall pr0 hpr0]; simp)

theorem grid_search_amended_witness :
    (∃ pr ∈ (grid_search evalConst ["a"] [[(1:ℚ)]]
        (freshOptimizer (List (String × ℚ)))).1.all_results,
      fgt pr.2 .neginf = true) ∧
    (grid_search evalConst ["a"] [[(1:ℚ)]]
        (freshOptimizer (List (String × ℚ)))).1.all_results.length =
      ([[(1:ℚ)]].map List.length).prod ∧
    (∃ q,
      (grid_search evalConst ["a"] [[(1:ℚ)]]
          (freshOptimizer (List (String × ℚ)))).1.best_score = q ∧
      (∃ pr ∈ (grid_search evalConst ["a"] [[(1:ℚ)]]
          (freshOptimizer (List (String × ℚ)))).1.all_results, pr.2 = q) ∧
      (∀ pr ∈ (grid_search evalConst ["a"] [[(1:ℚ)]]
          (freshOptimizer (List (String × ℚ)))).1.all_results,
        fgt pr.2 q = false) ∧
      (grid_search evalConst ["a"] [[(1:ℚ)]]
          (freshOptimizer (List (String × ℚ)))).1.best_params =
        ((grid_search evalConst ["a"] [[(1:ℚ)]]
            (freshOptimizer (List (String × ℚ)))).1.all_results.find?
          (fun pr => pr.2 == q)).map Prod.fst) :=
  ⟨by decide, (grid_search_amended evalConst ["a"] [[(1:ℚ)]]).1,
   (grid_search_amended evalConst ["a"] [[(1:ℚ)]]).2.1 (by decide)⟩

/-- C10 (optimizer state accumulates): for two consecutive `grid_search`
calls on the same optimizer, the second call returns an `all_results` list
that is the first call's list followed by the second call's evaluations
(the pre-existing `self.results` prefix included), and its
`best_score` / `best_params` equal those of one continuous fold over the
concatenated evaluation sequence starting from the original state — i.e.
the running best over both calls; nothing is reset between calls. -/
theorem optimizer_accumulation {V : Type} (e₁ e₂ : List (String × V) → FVal)
    (n₁ n₂ : List String) (v₁ v₂ : List (List V))
    (o : OptimizerState (List (String × V))) :
    (grid_search e₂ n₂ v₂ (grid_search e₁ n₁ v₁ o).2).1.all_results =
      (grid_search e₁ n₁ v₁ o).1.all_results ++ gridEvals e₂ n₂ v₂ ∧
    (grid_search e₂ n₂ v₂ (grid_search e₁ n₁ v₁ o).2).1.all_results =
      o.results ++ (gridEvals e₁ n₁ v₁ ++ gridEvals e₂ n₂ v₂) ∧
    (grid_search e₂ n₂ v₂ (grid_search e₁ n₁ v₁ o).2).1.best_score =
      ((gridEvals e₁ n₁ v₁ ++ gridEvals e₂ n₂ v₂).foldl evalStep
        o).best_score ∧
    (grid_search e₂ n₂ v₂ (grid_search e₁ n₁ v₁ o).2).1.best_params =
      ((gridEvals e₁ n₁ v₁ ++ gridEvals e₂ n₂ v₂).foldl evalStep
        o).best_params := by
  refine ⟨?_, ?_, ?_, ?_⟩ <;>
    simp [grid_search, foldl_evalStep_results, List.foldl_append,
      List.append_assoc]

theorem create_simulated_prices_length :
    ∀ (rets : List ℚ) (p : ℚ),
      (create_simulated_prices p rets).length = rets.length + 1
  | [], _ => rfl
  | r :: rest, p => by
    simp [create_simulated_prices, create_simulated_prices_length rest]

theorem pct_change_column_length (l : List ℚ) :
    (pct_change_column l).length = l.length := by
  cases l with
  | nil => rfl
  | cons a as =>
    simp [pct_change_column, pct_change_dropna]

/-- C7 (code bug): a Monte Carlo trial never completes.  The simulated
price path has one element more than the historical window
(`_create_simulated_prices` starts from the initial price and appends once
per resampled return), so the pandas column assignment
`simulated_data['close'] = simulated_prices` raises `ValueError` on every
nonempty window; and even with matching lengths the call
`run_backtest(..., data=simulated_data)` would raise `TypeError`, since
`run_backtest` has no `data` parameter. -/
theorem monte_carlo_trial_crashes (d : DataFrame) (resampled : List ℚ)
    (hne : d.close ≠ [])
    (hlen : resampled.length = (pct_change_column d.close).length) :
    run_simulation_trial d resampled = .error .valueError := by
  have hlen2 : resampled.length = d.close.length := by
    rw [hlen, pct_change_column_length]
  obtain ⟨c0, cs, hd⟩ : ∃ c0 cs, d.close = c0 :: cs := by
    cases hcl : d.close with
    | nil => exact absurd hcl hne
    | cons a as => exact ⟨a, as, rfl⟩
  simp only [run_simulation_trial, hd, List.head?_cons]
  rw [if_neg]
  rw [create_simulated_prices_length]
  rw [hd] at hlen2
  omega

theorem monte_carlo_trial_crashes_witness :
    run_simulation_trial dataFlat3 [0, 0, 0] = .error .valueError :=
  monte_carlo_trial_crashes dataFlat3 [0, 0, 0] (by decide) (by decide)

/-! ## Drawdown sign analysis (C8) -/

theorem fle_trans_fin_zero (a b : FVal) (hab : fle a b = true)
    (hb0 : fle b (.fin 0) = true) : fle a (.fin 0) = true := by
  cases a <;> cases b <;> simp_all [fle] <;> linarith

theorem fle_flip (a b : FVal) (ha : a ≠ .nan) (hb : b ≠ .nan)
    (h : fle a b = false) : fle b a = true := by
  cases a <;> cases b <;> simp_all [fle] <;> linarith

theorem fmin2_eq_ite (a x : FVal) (ha : a ≠ .nan) (hx : x ≠ .nan) :
    fmin2 a x = if fle a x then a else x := by
  cases a <;> cases x <;> simp_all [fmin2]

theorem foldl_fmin2_le (l : List FVal) :
    ∀ acc, fle acc (.fin 0) = true →
      fle (l.foldl fmin2 acc) (.fin 0) = true := by
  induction l with
  | nil => intro acc h; exact h
  | cons x xs ih =>
    intro acc h
    apply ih
    have hacc_ne : acc ≠ .nan := by
      intro he
      rw [he] at h
      simp [fle] at h
    by_cases hx : x = .nan
    · subst hx
      have hxa : fmin2 acc .nan = acc := by cases acc <;> rfl
      rw [hxa]
      exact h
    · rw [fmin2_eq_ite acc x hacc_ne hx]
      cases hfax : fle acc x with
      | true => simp only [hfax, if_true]; exact h
      | false =>
        simp only [hfax, Bool.false_eq_true, if_false]
        exact fle_trans_fin_zero x acc (fle_flip acc x hacc_ne hx hfax) h

theorem foldl_fmin2_reach (l : List FVal) :
    ∀ acc x, x ∈ l → x ≠ .nan → fle x (.fin 0) = true →
      fle (l.foldl fmin2 acc) (.fin 0) = true := by
  induction l with
  | nil => intro acc x hx _ _; simp at hx
  | cons y ys ih =>
    intro acc x hx hxn hx0
    rcases List.mem_cons.1 hx with rfl | hmem
    · rw [List.foldl_cons]
      apply foldl_fmin2_le
      by_cases hacc : acc = .nan
      · subst hacc
        have hnx : fmin2 .nan x = x := by cases x <;> rfl
        rw [hnx]
        exact hx0
      · rw [fmin2_eq_ite acc x hacc hxn]
        cases hfax : fle acc x with
        | true =>
          simp only [hfax, if_true]
          exact fle_trans_fin_zero acc x hfax hx0
        | false =>
          simp only [hfax, Bool.false_eq_true, if_false]
          exact hx0
    · exact ih (fmin2 acc y) x hmem hxn hx0

theorem fdiv_self_zero (c : ℚ) (hc : c ≠ 0) : fdiv (c - c) c = .fin 0 := by
  simp [fdiv, hc]

theorem fdiv_zero_zero : fdiv ((0:ℚ) - 0) 0 = .nan := by
  norm_num [fdiv]

theorem drawdownList_cons (a b : ℚ) (l m : List ℚ) :
    drawdownList (a :: l) (b :: m) = fdiv (a - b) b :: drawdownList l m := rfl

theorem dd_from_zero (cs : List ℚ) :
    (∃ x ∈ cs, x ≠ 0) →
    fle (List.foldl fmin2 .nan
        (drawdownList cs (runningMaxFrom 0 cs))) (.fin 0) = true := by
  induction cs with
  | nil =>
    rintro ⟨x, hx, -⟩
    simp at hx
  | cons y ys ih =>
    rintro ⟨x, hx, hxne⟩
    rw [show runningMaxFrom 0 (y :: ys) =
        max 0 y :: runningMaxFrom (max 0 y) ys from rfl, drawdownList_cons]
    by_cases hy : y = 0
    · subst hy
      rw [show max (0:ℚ) 0 = 0 from max_self 0, fdiv_zero_zero,
        List.foldl_cons, show fmin2 .nan .nan = .nan from rfl]
      apply ih
      rcases List.mem_cons.1 hx with rfl | hmem
      · exact absurd rfl hxne
      · exact ⟨x, hmem, hxne⟩
    · rcases lt_or_gt_of_ne hy with hlt | hgt
      · have hmax : max (0:ℚ) y = 0 := max_eq_left (le_of_lt hlt)
        rw [hmax]
        have hhead : fdiv (y - 0) 0 = .neginf := by
          unfold fdiv
          rw [if_neg (by simp), if_neg (by linarith), if_pos (by linarith)]
        rw [hhead, List.foldl_cons,
          show fmin2 .nan .neginf = .neginf from rfl]
        exact foldl_fmin2_le _ .neginf rfl
      · have hmax : max (0:ℚ) y = y := max_eq_right (le_of_lt hgt)
        rw [hmax, fdiv_self_zero y hy, List.foldl_cons,
          show fmin2 .nan (.fin 0) = .fin 0 from rfl]
        exact foldl_fmin2_le _ _ (by simp [fle])

theorem mdd_le_zero (rets : List ℚ) (hnz : ∃ x ∈ cumsum rets, x ≠ 0) :
    fle (max_drawdown_val rets) (.fin 0) = true := by
  unfold max_drawdown_val fminList
  cases hc : cumsum rets with
  | nil =>
    rw [hc] at hnz
    rcases hnz with ⟨x, hx, -⟩
    simp at hx
  | cons c cs =>
    rw [hc] at hnz
    rw [show runningMax (c :: cs) = c :: runningMaxFrom c cs from rfl,
      drawdownList_cons]
    by_cases hcne : c = 0
    · subst hcne
      rw [fdiv_zero_zero, List.foldl_cons,
        show fmin2 .nan .nan = .nan from rfl]
      apply dd_from_zero
      rcases hnz with ⟨x, hx, hxne⟩
      rcases List.mem_cons.1 hx with rfl | hmem
      · exact absurd rfl hxne
      · exact ⟨x, hmem, hxne⟩
    · rw [fdiv_self_zero c hcne, List.foldl_cons,
        show fmin2 .nan (.fin 0) = .fin 0 from rfl]
      exact foldl_fmin2_le _ _ (by simp [fle])

/-- C8 counterexample: the reported max drawdown is not always a
nonpositive number.  With commission `0`, two trades on a constant price
series the equity curve is constant, every return is `0`, every running
maximum of the cumulative return is `0`, so each drawdown entry is the
float `0 / 0 = NaN` and the reported minimum is `NaN` — for which
`max_drawdown ≤ 0` is false (float comparisons with `NaN` are false). -/
theorem max_drawdown_counterexample :
    maxDrawdownOf (run_backtest 0 1 stratBS dataFlat3) = some .nan ∧
    fle .nan (.fin 0) = false := by
  constructor
  · with_unfolding_all decide
  · rfl

/-- C8 amended: for every run with at least 2 trades (and at least one sell
trade, so that the metrics computation completes), the reported
`max_drawdown` equals the minimum over time of
`(cumulative return − running maximum) / running maximum`, and this value
satisfies `max_drawdown ≤ 0` whenever some prefix sum of the returns is
nonzero; when every prefix sum is zero (a flat cumulative-return curve) the
reported value is `NaN` instead, as the counterexample shows. -/
theorem max_drawdown_amended (returns : List ℚ) (trades : List Trade)
    (h2 : 2 ≤ trades.length) (hs : sellsOf trades ≠ [])
    (hnz : ∃ x ∈ cumsum returns, x ≠ 0) :
    Option.map Metrics.max_drawdown (calculate_metrics returns trades) =
      some (max_drawdown_val returns) ∧
    fle (max_drawdown_val returns) (.fin 0) = true := by
  constructor
  · have hlen : ¬ trades.length < 2 := by omega
    have hsl : ¬ (sellsOf trades).length = 0 := by
      simpa [List.length_eq_zero] using hs
    simp [calculate_metrics, hlen, hsl]
  · exact mdd_le_zero returns hnz

theorem max_drawdown_amended_witness :
    Option.map Metrics.max_drawdown
        (calculate_metrics [1, -2]
          [⟨0, .buy, 1, 1, 0⟩, ⟨1, .sell, 1, 1, 1⟩]) =
      some (max_drawdown_val [1, -2]) ∧
    fle (max_drawdown_val [1, -2]) (.fin 0) = true :=
  max_drawdown_amended [1, -2] [⟨0, .buy, 1, 1, 0⟩, ⟨1, .sell, 1, 1, 1⟩]
    (by decide) (by decide) (by with_unfolding_all decide)

/-! ## Engine-loop invariant (C9)

What the loop guarantees about its `trades` list: each trade records the
capital after its own update (so the last trade's recorded capital is the
current capital), timestamps are strictly increasing (hence the list has no
duplicates and Python's first-match `trades.index(t)` finds each trade's
own position), and every sell sits right after a trade whose recorded
capital it extends by `size * price * (1 - commission)` with positive
size. -/

/-- The shape of every sell entry of a trades list produced by the engine
loop: it has a predecessor, positive size, and its recorded capital is the
predecessor's plus the sale proceeds. -/
def SellRel (c : ℚ) (l : List Trade) : Prop :=
  ∀ k, k < l.length → (l.getD k default).type = .sell →
    1 ≤ k ∧ 0 < (l.getD k default).size ∧
    (l.getD k default).capital =
      (l.getD (k - 1) default).capital +
        (l.getD k default).size * (l.getD k default).price * (1 - c)

theorem sellRel_append (c : ℚ) (l : List Trade) (t : Trade)
    (hold : SellRel c l)
    (hnew : t.type = .sell →
      1 ≤ l.length ∧ 0 < t.size ∧
      t.capital =
        (l.getD (l.length - 1) default).capital +
          t.size * t.price * (1 - c)) :
    SellRel c (l ++ [t]) := by
  intro k hk hty
  rcases Nat.lt_or_ge k l.length with hlt | hge
  · rw [getD_append_lt default l [t] k hlt] at hty ⊢
    obtain ⟨hk1, hsz, hcap⟩ := hold k hlt hty
    refine ⟨hk1, hsz, ?_⟩
    rw [getD_append_lt default l [t] (k - 1) (by omega)]
    exact hcap
  · have hkl : k = l.length := by
      simp only [List.length_append, List.length_singleton] at hk
      omega
    subst hkl
    rw [getD_concat] at hty ⊢
    obtain ⟨hlen, hsz, hcap⟩ := hnew hty
    refine ⟨hlen, hsz, ?_⟩
    rw [getD_append_lt default l [t] (l.length - 1) (by omega)]
    exact hcap

/-- The invariant the engine loop maintains on its state after processing
bars `0, …, b - 1`. -/
structure EngInv (c ic : ℚ) (b : Nat) (s : EngState) : Prop where
  cap_last : s.capital = ((s.trades.getLast?).map Trade.capital).getD ic
  ts_lt : ∀ t ∈ s.trades, t.timestamp < b
  ts_mono : s.trades.Pairwise fun t u => t.timestamp < u.timestamp
  pos_ne : 0 < s.position → s.trades ≠ []
  sell_rel : SellRel c s.trades

theorem tradeStep_inv (c ic p : ℚ) (a : Action) (n : Nat) (s : EngState)
    (h : EngInv c ic n s) : EngInv c ic (n + 1) (tradeStep c a p n s) := by
  have hweak : ∀ t ∈ s.trades, t.timestamp < n + 1 :=
    fun t ht => Nat.lt_succ_of_lt (h.ts_lt t ht)
  have happend_ts : ∀ u : Trade, u.timestamp = n →
      ∀ t ∈ s.trades ++ [u], t.timestamp < n + 1 := by
    intro u hu t ht
    rcases List.mem_append.1 ht with ht | ht
    · exact Nat.lt_succ_of_lt (h.ts_lt t ht)
    · simp only [List.mem_singleton] at ht
      subst ht
      omega
  have happend_mono : ∀ u : Trade, u.timestamp = n →
      (s.trades ++ [u]).Pairwise fun t v => t.timestamp < v.timestamp := by
    intro u hu
    rw [List.pairwise_append]
    refine ⟨h.ts_mono, List.pairwise_singleton _ _, ?_⟩
    intro t ht v hv
    simp only [List.mem_singleton] at hv
    subst hv
    rw [hu]
    exact h.ts_lt t ht
  cases a with
  | hold => exact ⟨h.cap_last, hweak, h.ts_mono, h.pos_ne, h.sell_rel⟩
  | buy =>
    simp only [tradeStep]
    split
    · refine ⟨?_, happend_ts _ rfl, happend_mono _ rfl, fun _ => by simp, ?_⟩
      · rw [List.getLast?_concat]
        rfl
      · apply sellRel_append c s.trades _ h.sell_rel
        intro habs
        simp at habs
    · exact ⟨h.cap_last, hweak, h.ts_mono, h.pos_ne, h.sell_rel⟩
  | sell =>
    simp only [tradeStep]
    split
    · next hpos =>
      have hne : s.trades ≠ [] := h.pos_ne hpos
      have hlen : 1 ≤ s.trades.length := List.length_pos.2 hne
      refine ⟨?_, happend_ts _ rfl, happend_mono _ rfl,
        fun h0 => absurd h0 (lt_irrefl 0), ?_⟩
      · rw [List.getLast?_concat]
        rfl
      · apply sellRel_append c s.trades _ h.sell_rel
        intro _
        refine ⟨hlen, hpos, ?_⟩
        have hlast : s.trades.getLast? = some (s.trades.getLast hne) :=
          List.getLast?_eq_getLast s.trades hne
        have hcap : s.capital = (s.trades.getLast hne).capital := by
          rw [h.cap_last, hlast]
          rfl
        have hgetD : s.trades.getD (s.trades.length - 1) default =
            s.trades.getLast hne := by
          rw [List.getD_eq_getElem _ _ (by omega), List.getLast_eq_getElem]
        rw [hgetD, ← hcap]
    · exact ⟨h.cap_last, hweak, h.ts_mono, h.pos_ne, h.sell_rel⟩

theorem runUpTo_inv (c ic : ℚ) (strategy : DataFrame → Action) (d : DataFrame) :
    ∀ n, EngInv c ic n (runUpTo c ic strategy d n)
  | 0 =>
    ⟨rfl, by simp [runUpTo, initState], List.Pairwise.nil,
     fun h0 => absurd h0 (lt_irrefl 0), fun k hk => by simp [runUpTo, initState] at hk⟩
  | n + 1 => by
    rw [runUpTo_succ]
    have h := tradeStep_inv c ic (d.close.getD n 0)
      (strategy (currentData d n)) n _ (runUpTo_inv c ic strategy d n)
    exact ⟨h.cap_last, h.ts_lt, h.ts_mono, h.pos_ne, h.sell_rel⟩

theorem nodup_of_ts_mono (l : List Trade)
    (h : l.Pairwise fun t u => t.timestamp < u.timestamp) : l.Nodup :=
  h.imp fun hlt heq => absurd (heq ▸ hlt) (lt_irrefl _)

theorem getD_mem {α : Type} (l : List α) (x : α) (k : Nat)
    (hk : k < l.length) : l.getD k x ∈ l := by
  rw [List.getD_eq_getElem l x hk]
  exact List.getElem_mem hk

theorem indexOf_getD_nodup :
    ∀ (l : List Trade), l.Nodup → ∀ k, k < l.length →
      l.indexOf (l.getD k default) = k
  | [], _, k, hk => by simp at hk
  | a :: as, _, 0, _ => by
    rw [List.getD_cons_zero]
    exact List.indexOf_cons_self a as
  | a :: as, hnd, k + 1, hk => by
    have htl : as.Nodup := (List.nodup_cons.1 hnd).2
    have hmem : as.getD k default ∈ as :=
      getD_mem as default k (by simpa using hk)
    have hne : a ≠ as.getD k default :=
      fun he => (List.nodup_cons.1 hnd).1 (he ▸ hmem)
    rw [List.getD_cons_succ, List.indexOf_cons_ne _ hne,
      indexOf_getD_nodup as htl k (by simpa using hk)]

/-- C9 counterexample: the implicit always-winning classification fails
once the commission rate reaches `1`.  With commission `2`, a buy–sell
round trip at constant price `1` produces two trades with strictly positive
prices, yet the sell's recorded capital (`-3`) is below the buy's (`-2`),
so it lands in the losing bucket and the reported win rate is `0`, not
`1`. -/
theorem win_rate_counterexample :
    tradesOf (run_backtest 2 1 stratBS dataFlat2) =
      [⟨0, .buy, 1, 1, -2⟩, ⟨1, .sell, 1, 1, -3⟩] ∧
    (∀ t ∈ tradesOf (run_backtest 2 1 stratBS dataFlat2), 0 < t.price) ∧
    winRateOf (run_backtest 2 1 stratBS dataFlat2) = some 0 ∧
    (0 : ℚ) ≠ 1 := by
  with_unfolding_all decide

/-- C9 amended: for every run with commission < 1, at least 2 trades, at
least one sell trade (so the win-rate division is defined), and every trade
price strictly positive, every sell trade is classified as winning — a buy
records the post-deployment capital, and the subsequent sell records that
value plus the strictly positive proceeds `size * price * (1 − commission)`
— so the reported win rate is `1` regardless of round-trip profitability
relative to pre-entry capital. -/
theorem win_rate_amended (c ic : ℚ) (strategy : DataFrame → Action)
    (d : DataFrame) (hc : c < 1)
    (hp : ∀ t ∈ (runBars c ic strategy d).trades, 0 < t.price)
    (h2 : 2 ≤ (runBars c ic strategy d).trades.length)
    (hs : sellsOf (runBars c ic strategy d).trades ≠ []) :
    winning_trades (runBars c ic strategy d).trades =
      sellsOf (runBars c ic strategy d).trades ∧
    Option.map Metrics.win_rate
      (calculate_metrics
        (pct_change_dropna (runBars c ic strategy d).equity)
        (runBars c ic strategy d).trades) = some 1 := by
  have hinv : EngInv c ic d.close.length (runBars c ic strategy d) :=
    runUpTo_inv c ic strategy d d.close.length
  set tr := (runBars c ic strategy d).trades with htr
  have hnd : tr.Nodup := nodup_of_ts_mono tr hinv.ts_mono
  have hkey : ∀ t ∈ tr, t.type = TradeType.sell →
      prevCapital tr t < t.capital := by
    intro t ht hsell
    obtain ⟨k, hk, hgetEl⟩ := List.getElem_of_mem ht
    have hgd : tr.getD k default = t := by
      rw [List.getD_eq_getElem _ _ hk, hgetEl]
    have hidx : tr.indexOf t = k := by
      rw [← hgd]
      exact indexOf_getD_nodup tr hnd k hk
    obtain ⟨hk1, hsize, hcap⟩ := hinv.sell_rel k hk (by rw [hgd]; exact hsell)
    have hprev : prevCapital tr t = (tr.getD (k - 1) default).capital := by
      unfold prevCapital pyGetTrade
      rw [hidx, if_pos (by omega : (0:Int) ≤ (k : Int) - 1),
        show ((k : Int) - 1).toNat = k - 1 by omega]
    rw [hgd] at hcap hsize
    rw [hprev, hcap]
    have hpos : 0 < t.size * t.price * (1 - c) :=
      mul_pos (mul_pos hsize (hp t ht)) (by linarith)
    linarith
  have hfilter : winning_trades tr = sellsOf tr := by
    unfold winning_trades sellsOf
    apply List.filter_congr
    intro t ht
    by_cases hsell : t.type = TradeType.sell
    · simp [hsell, hkey t ht hsell]
    · simp [hsell]
  refine ⟨hfilter, ?_⟩
  have hlen : ¬ tr.length < 2 := by omega
  have hsl : ¬ (sellsOf tr).length = 0 := by
    simpa [List.length_eq_zero] using hs
  have hone : ((winning_trades tr).length : ℚ) /
      ((sellsOf tr).length : ℚ) = 1 := by
    rw [hfilter]
    exact div_self (by exact_mod_cast hsl)
  simp [calculate_metrics, hlen, hsl, hone]

theorem win_rate_amended_witness :
    winning_trades (runBars 0 1 stratBS dataFlat3).trades =
      sellsOf (runBars 0 1 stratBS dataFlat3).trades ∧
    Option.map Metrics.win_rate
      (calculate_metrics
        (pct_change_dropna (runBars 0 1 stratBS dataFlat3).equity)
        (runBars 0 1 stratBS dataFlat3).trades) = some 1 :=
  win_rate_amended 0 1 stratBS dataFlat3 (by decide)
    (by with_unfolding_all decide) (by with_unfolding_all decide)
    (by with_unfolding_all decide)

end Backtest
